import Mathlib

/-!
# Verification of the Neural-Cortex core against its specification

Shallow embedding of the algorithmic core of the repository:

* the visual-graph pipeline of `fetchGraphData` in
  `src/app/(dashboard)/studio/page.tsx` (node cap, per-node edge cap,
  BFS clustering, bridge insertion, link rendering callbacks,
  `connectedNodes`);
* the agent layer of `src/lib/agents.ts` (`classifyIntent`,
  `consensusSummarize`, `validateResponse`, `runAgents`);
* the knowledge-graph store operations of the document-ingestion route
  (`processDocumentWithAI`) and the graph-rebuild branch of
  `src/app/api/brain/query/route.ts` (entity upsert, co-occurrence linking).

JavaScript numbers are modelled as `ℚ` (all arithmetic appearing in the
embedded code is exact on decimals), JS strings as `String`, JS `Map`/`Set`
state as association lists or functions, and promise settlement outcomes as
`Option`.
-/

set_option maxRecDepth 10000

namespace NeuralCortex

/-- JS `String.prototype.toLowerCase`, modelled characterwise on the
underlying character list. -/
def lowerStr (s : String) : String :=
  ⟨s.data.map Char.toLower⟩

/-- Does the character list `l` start with the character list `p`?
(Helper for JS `String.prototype.includes`.) -/
def takesLead : List Char → List Char → Bool
  | [], _ => true
  | _ :: _, [] => false
  | p :: ps, c :: cs => p = c && takesLead ps cs

/-- JS `s.includes(pat)`: `pat` occurs contiguously inside `s`. -/
def occursIn (s pat : String) : Bool :=
  go s.data pat.data
where
  go : List Char → List Char → Bool
    | [], pat => pat.isEmpty
    | c :: cs, pat => takesLead pat (c :: cs) || go cs pat

/-- JS `Array.from(new Set(xs))`: deduplicate keeping the first
occurrence of each element, preserving insertion order. (Filtering the
later occurrences after the recursive call keeps the recursion
structural; the result is the usual first-occurrence deduplication.) -/
def setDedup {α : Type} [DecidableEq α] : List α → List α
  | [] => []
  | a :: l => a :: (setDedup l).filter (· ≠ a)

/-! ## Studio page: visual graph pipeline (`fetchGraphData`) -/

/-- A graph node as consumed by the studio page (`GraphNode`), with the
`val`/`color` decoration added in `fetchGraphData`. -/
structure GraphNode where
  id : String
  label : String
  type : String
  strength : ℚ
  val : ℚ := 0
  color : String := ""
  deriving DecidableEq, Repr

/-- A graph link (`GraphLink`); `bridge` models the `_bridge` marker of
synthetic cluster-connecting links. -/
structure GraphLink where
  source : String
  target : String
  strength : ℚ
  bridge : Bool := false
  deriving DecidableEq, Repr

/-- The `typeColors` record of the studio page. -/
def typeColors : String → Option String
  | "concept" => some "#00f0ff"
  | "entity" => some "#b829f7"
  | "document" => some "#ff0080"
  | "idea" => some "#00ff88"
  | "person" => some "#ffaa00"
  | "technology" => some "#00aaff"
  | "topic" => some "#ff6b6b"
  | "organization" => some "#4ecdc4"
  | _ => none

/-- JS `n.strength || 1` (a zero strength is falsy and falls back to 1). -/
def strengthOr1 (n : GraphNode) : ℚ :=
  if n.strength = 0 then 1 else n.strength

/-- The decoration `fetchGraphData` applies to every fetched node:
`val = max((strength || 1) * 2.5, 3)` and the type-keyed color with a
white fallback. -/
def decorate (n : GraphNode) : GraphNode :=
  { n with
    val := max (strengthOr1 n * (5 / 2 : ℚ)) 3
    color := (typeColors (lowerStr n.type)).getD "#ffffff" }

/-- `MAX_TOTAL_NODES` in `fetchGraphData`. -/
def MAX_TOTAL_NODES : ℕ := 80

/-- `MAX_LINKS_PER_NODE` in `fetchGraphData`. -/
def MAX_LINKS_PER_NODE : ℕ := 6

/-- The non-`entity` nodes (`importantNodes` in the source): all kept. -/
def importantNodes (allNodes : List GraphNode) : List GraphNode :=
  allNodes.filter (fun n => n.type ≠ "entity")

/-- Descending-strength comparison used by the entity sort
(`(b.strength || 1) - (a.strength || 1)` comparator); stable insertion
sort models the (stable) JS `Array.prototype.sort`. -/
def nodeGE (a b : GraphNode) : Prop :=
  strengthOr1 b ≤ strengthOr1 a

instance : DecidableRel nodeGE := fun a b =>
  inferInstanceAs (Decidable (strengthOr1 b ≤ strengthOr1 a))

instance : IsTotal GraphNode nodeGE :=
  ⟨fun a b => le_total (strengthOr1 b) (strengthOr1 a)⟩

instance : IsTrans GraphNode nodeGE :=
  ⟨fun _ _ _ h h' => le_trans h' h⟩

/-- The `entity` nodes sorted by strength descending and truncated by
`slice(0, Math.max(MAX_TOTAL_NODES - importantNodes.length, 20))`
(`entityNodes` in the source). -/
def entityNodes (allNodes : List GraphNode) : List GraphNode :=
  ((allNodes.filter (fun n => n.type = "entity")).insertionSort nodeGE).take
    (max (MAX_TOTAL_NODES - (importantNodes allNodes).length) 20)

/-- The node-selection step of `fetchGraphData`:
`nodes = [...importantNodes, ...entityNodes]`. -/
def selectNodes (allNodes : List GraphNode) : List GraphNode :=
  importantNodes allNodes ++ entityNodes allNodes

/-- Descending-weight comparison for the link sort
(`(b.strength || 0) - (a.strength || 0)`; `x || 0 = x` on numbers). -/
def linkGE (a b : GraphLink) : Prop :=
  b.strength ≤ a.strength

instance : DecidableRel linkGE := fun a b =>
  inferInstanceAs (Decidable (b.strength ≤ a.strength))

instance : IsTotal GraphLink linkGE :=
  ⟨fun a b => le_total b.strength a.strength⟩

instance : IsTrans GraphLink linkGE :=
  ⟨fun _ _ _ h h' => le_trans h' h⟩

/-- Bump a per-node link counter (`linkCountPerNode.set(id, cnt + 1)`). -/
def bump (cnt : String → ℕ) (x : String) : String → ℕ :=
  fun y => if y = x then cnt y + 1 else cnt y

/-- The edge-selection filter of `fetchGraphData`, over links already
sorted by weight: drop links with an endpoint outside the kept node set,
self-loops, and links both of whose endpoints have reached
`MAX_LINKS_PER_NODE`; admission increments both endpoints' counters. -/
def filterLinksAux (nodeIds : List String) (cnt : String → ℕ) :
    List GraphLink → List GraphLink × (String → ℕ)
  | [] => ([], cnt)
  | l :: ls =>
    if l.source ∈ nodeIds ∧ l.target ∈ nodeIds ∧ l.source ≠ l.target ∧
        ¬(MAX_LINKS_PER_NODE ≤ cnt l.source ∧ MAX_LINKS_PER_NODE ≤ cnt l.target) then
      let r := filterLinksAux nodeIds (bump (bump cnt l.source) l.target) ls
      (l :: r.1, r.2)
    else
      filterLinksAux nodeIds cnt ls

/-- `filteredLinks` in the source: sort all links by weight descending,
then run the stateful admission filter with all counters at zero. -/
def filteredLinks (nodeIds : List String) (allLinks : List GraphLink) :
    List GraphLink :=
  (filterLinksAux nodeIds (fun _ => 0) (allLinks.insertionSort linkGE)).1

/-- Add `b` to `a`'s adjacency set (`adjacency.get(a)?.add(b)`): updates
the entry only when the key `a` is present, and deduplicates like a JS
`Set`. -/
def adjAdd (adj : List (String × List String)) (a b : String) :
    List (String × List String) :=
  adj.map (fun e => if e.1 = a then (e.1, if b ∈ e.2 then e.2 else e.2 ++ [b]) else e)

/-- The adjacency map of `fetchGraphData`: every kept node id starts with
an empty neighbor set, and every filtered link adds both directions. -/
def buildAdjacency (nodeIds : List String) (links : List GraphLink) :
    List (String × List String) :=
  links.foldl (fun adj l => adjAdd (adjAdd adj l.source l.target) l.target l.source)
    (nodeIds.map (fun i => (i, [])))

/-- Look a node id up in the adjacency map (`adjacency.get(id)`),
defaulting to no neighbors. -/
def adjGet (adj : List (String × List String)) (id : String) : List String :=
  ((adj.find? (fun e => e.1 = id)).map (fun e => e.2)).getD []

/-- The inner BFS loop of `fetchGraphData`'s cluster detection.
`fuel` bounds the number of queue pops; the call sites hand it
`(n + 1) * (n + 1)` pops for `n` kept nodes, which dominates the
`1 + Σ deg` pops the loop can ever perform (adjacency sets are
deduplicated, so every degree is at most `n`). Returns the visited set
and the cluster in visit order. -/
def bfsAux (adj : List (String × List String)) :
    ℕ → List String → List String → List String → List String × List String
  | 0, visited, _, cluster => (visited, cluster)
  | _ + 1, visited, [], cluster => (visited, cluster)
  | fuel + 1, visited, current :: queue, cluster =>
    if current ∈ visited then
      bfsAux adj fuel visited queue cluster
    else
      bfsAux adj fuel (current :: visited)
        (queue ++ (adjGet adj current).filter (fun nb => nb ∉ current :: visited))
        (cluster ++ [current])

/-- One step of the outer cluster-detection loop: skip an already
visited node, otherwise run a BFS seeded at it and record the cluster. -/
def clusterStep (adj : List (String × List String)) (fuel : ℕ)
    (st : List String × List (List String)) (id : String) :
    List String × List (List String) :=
  if id ∈ st.1 then st
  else ((bfsAux adj fuel st.1 [id] []).1, st.2 ++ [(bfsAux adj fuel st.1 [id] []).2])

/-- The outer loop of the cluster detection: seed a BFS at every
not-yet-visited kept node, in node order, collecting the clusters. -/
def clustersOf (nodeIds : List String) (adj : List (String × List String)) :
    List (List String) :=
  (nodeIds.foldl
    (clusterStep adj ((nodeIds.length + 1) * (nodeIds.length + 1))) ([], [])).2

/-- Descending-size comparison for `clusters.sort((a, b) => b.length - a.length)`. -/
def clusterGE (a b : List String) : Prop :=
  b.length ≤ a.length

instance : DecidableRel clusterGE := fun a b =>
  inferInstanceAs (Decidable (b.length ≤ a.length))

instance : IsTotal (List String) clusterGE :=
  ⟨fun a b => Nat.le_total b.length a.length⟩

instance : IsTrans (List String) clusterGE :=
  ⟨fun _ _ _ h h' => le_trans h' h⟩

/-- The bridge links added when there is more than one cluster: for every
cluster after the (size-sorted) first, one invisible link from that
cluster's first node to the first node of the main cluster, with
strength `0.1` and the `_bridge` marker. -/
def bridgeLinks (sortedClusters : List (List String)) : List GraphLink :=
  if 1 < sortedClusters.length then
    (sortedClusters.tail).map
      (fun c =>
        { source := c.headD ""
          target := (sortedClusters.headD []).headD ""
          strength := 1 / 10
          bridge := true })
  else []

/-- The ids of the kept (capped) node set of `fetchGraphData`. -/
def keptIds (rawNodes : List GraphNode) : List String :=
  (selectNodes (rawNodes.map decorate)).map (fun n => n.id)

/-- The size-sorted cluster list `fetchGraphData` computes over the
admitted links of the kept nodes. -/
def visClusters (rawNodes : List GraphNode) (rawLinks : List GraphLink) :
    List (List String) :=
  (clustersOf (keptIds rawNodes)
      (buildAdjacency (keptIds rawNodes)
        (filteredLinks (keptIds rawNodes) rawLinks))).insertionSort clusterGE

/-- The whole `fetchGraphData` computation on fetched data: decorate
nodes, cap the node set, filter links, detect clusters by BFS, and
append one bridge link per non-main cluster. Returns the node and link
lists handed to `setGraphData`. -/
def fetchGraphData (rawNodes : List GraphNode) (rawLinks : List GraphLink) :
    List GraphNode × List GraphLink :=
  (selectNodes (rawNodes.map decorate),
    filteredLinks (keptIds rawNodes) rawLinks ++ bridgeLinks (visClusters rawNodes rawLinks))

/-- The id-collection loop of the `connectedNodes` memo: for every link
(bridge links are not excluded), record the opposite endpoint of any
link touching the selected id. -/
def collectConnected (selId : String) (links : List GraphLink) : List String :=
  links.foldl
    (fun ids l =>
      if l.target = selId then
        (if l.source = selId then ids ++ [l.target] else ids) ++ [l.source]
      else if l.source = selId then ids ++ [l.target] else ids)
    []

/-- The `connectedNodes` memo of the studio page: with a selected node
and a nonempty link list, collect the opposite endpoint of every link
touching the selected node (bridge links are not excluded), and keep the
graph nodes whose id was collected. -/
def connectedNodes (selectedNode : Option GraphNode)
    (nodes : List GraphNode) (links : List GraphLink) : List GraphNode :=
  match selectedNode with
  | none => []
  | some sel =>
    if links.length = 0 then []
    else nodes.filter (fun n => n.id ∈ collectConnected sel.id links)

/-- The view state the link rendering callbacks of the studio page close
over. -/
structure LinkViewState where
  selectedNode : Option GraphNode
  searchQuery : String
  searchResults : List GraphNode
  searchMatchIds : List String
  nodes : List GraphNode
  deriving Repr

/-- The `linkColor` callback: bridge links are always fully transparent;
otherwise the color depends on selection and search state. -/
def linkColor (st : LinkViewState) (l : GraphLink) : String :=
  if l.bridge then "rgba(0, 0, 0, 0)"
  else
    match st.selectedNode with
    | none =>
      if st.searchQuery ≠ "" ∧ 0 < st.searchResults.length then
        if l.source ∈ st.searchMatchIds ∨ l.target ∈ st.searchMatchIds then
          "rgba(255, 200, 50, 0.5)"
        else "rgba(255, 255, 255, 0.04)"
      else "rgba(255, 255, 255, 0.15)"
    | some sel =>
      if l.source = sel.id ∨ l.target = sel.id then
        let other := if l.source = sel.id then l.target else l.source
        (((st.nodes.find? (fun n => n.id = other)).map
            (fun n => n.color)).getD "#00f0ff") ++ "CC"
      else "rgba(255, 255, 255, 0.04)"

/-- The `linkWidth` callback: bridge links always have width zero;
otherwise the width depends on selection and search state. -/
def linkWidth (st : LinkViewState) (l : GraphLink) : ℚ :=
  if l.bridge then 0
  else
    match st.selectedNode with
    | none =>
      if st.searchQuery ≠ "" ∧ 0 < st.searchResults.length then
        if l.source ∈ st.searchMatchIds ∨ l.target ∈ st.searchMatchIds then 3 / 2
        else 1 / 5
      else 3 / 5
    | some sel =>
      if l.source = sel.id ∨ l.target = sel.id then
        max ((if l.strength = 0 then 1 else l.strength) * 2) 2
      else 1 / 5

/-! ## Agent layer (`src/lib/agents.ts`) -/

/-- `ExpertType` of `agents.ts`. -/
inductive ExpertType where
  | knowledge
  | search
  | youtube
  | summarize
  | general
  deriving DecidableEq, Repr

/-- The four cue families of the intent classifier. Each field models
one `PATTERNS.some((p) => p.test(message))` check of `classifyIntent`
(`YOUTUBE_PATTERNS`, `SEARCH_PATTERNS`, `SUMMARIZE_PATTERNS`,
`KNOWLEDGE_PATTERNS`); the regular-expression machinery itself is the
JS engine, abstracted as the resulting boolean test. -/
structure IntentCues where
  youtube : String → Bool
  search : String → Bool
  summarize : String → Bool
  knowledge : String → Bool

/-- `classifyIntent` of `agents.ts`: always `knowledge`; each matching
cue family appends its tag; the safety net appends `search` when only
`knowledge` was added, no possessive cue matched, and the lower-cased
message contains a question mark; the result is deduplicated like
`Array.from(new Set(...))`. -/
def classifyIntent (cues : IntentCues) (message : String) : List ExpertType :=
  let intents := [ExpertType.knowledge]
  let intents := if cues.youtube message then intents ++ [ExpertType.youtube] else intents
  let intents := if cues.search message then intents ++ [ExpertType.search] else intents
  let intents := if cues.summarize message then intents ++ [ExpertType.summarize] else intents
  let intents :=
    if intents.length = 1 ∧ ¬cues.knowledge message ∧ occursIn (lowerStr message) "?" then
      intents ++ [ExpertType.search]
    else intents
  setDedup intents

/-- `consensusSummarize` of `agents.ts`, with the two settled
summarization outcomes and the merge call as explicit inputs: a rejected
promise contributes `''` (`Option.none`), an unconfigured HuggingFace
client contributes the pre-resolved `''`. -/
def consensusSummarize (nvidiaOutcome : Option String) (hfConfigured : Bool)
    (hfOutcome : Option String) (merge : String → String → Option String) : String :=
  let summary1 := nvidiaOutcome.getD ""
  let summary2 := if hfConfigured then hfOutcome.getD "" else ""
  if summary1 = "" ∧ summary2 ≠ "" then summary2
  else if summary1 ≠ "" ∧ summary2 = "" then summary1
  else if summary1 = "" ∧ summary2 = "" then ""
  else (merge summary1 summary2).getD summary1

/-- The fixed caution notice `validateResponse` appends when the
fact-check flags issues. -/
def cautionNotice : String :=
  "\n\n> ⚠️ *Some claims in this response may need verification. Cross-reference with your source documents for accuracy.*"

/-- `validateResponse` of `agents.ts`, with the settled validation call
as input (`none` models a thrown/rejected call): unconfigured validator,
affirmative or inconclusive validation, and exceptions all return the
answer unchanged; flagged issues append the fixed caution notice. -/
def validateResponse (hfConfigured : Bool) (validationOutcome : Option String)
    (response : String) : String :=
  if ¬hfConfigured then response
  else
    match validationOutcome with
    | none => response
    | some validation =>
      if occursIn validation "VALIDATED" || !occursIn validation "ISSUES" then response
      else response ++ cautionNotice

/-- A web search result (`SearchResult` of `search.ts`). -/
structure SearchResult where
  title : String
  url : String
  snippet : String
  deriving DecidableEq, Repr

/-- A video search result (`YouTubeResult` of `search.ts`). -/
structure YouTubeResult where
  title : String
  url : String
  snippet : String
  videoId : String
  deriving DecidableEq, Repr

/-- A source entry of the agent context. -/
structure SourceEntry where
  type : String
  title : String
  url : Option String := none
  deriving DecidableEq, Repr

/-- The output of an async expert (`{ results, context }`). -/
structure ExpertOutput (α : Type) where
  results : List α
  context : String
  deriving Repr

/-- The output of the synchronous knowledge expert
(`{ context, sources }`). -/
structure KnowledgeOutput where
  context : String
  sources : List SourceEntry
  deriving Repr

/-- `AgentContext` of `agents.ts`. -/
structure AgentContext where
  knowledgeContext : String
  searchResults : List SearchResult
  youtubeResults : List YouTubeResult
  searchContext : String
  youtubeContext : String
  sources : List SourceEntry
  expertsUsed : List ExpertType
  deriving Repr

/-- `runAgents` of `agents.ts`, with the synchronous knowledge expert's
output and the settled outcomes of the dispatched async experts as
explicit inputs. An async expert is dispatched only when its intent was
classified; a missing task or a rejected settlement contributes
`{ results: [], context: '' }`. `expertsUsed` is the classifier
output. -/
def runAgents (cues : IntentCues) (message : String)
    (knowledgeResult : KnowledgeOutput)
    (searchOutcome : Option (ExpertOutput SearchResult))
    (youtubeOutcome : Option (ExpertOutput YouTubeResult)) : AgentContext :=
  let intents := classifyIntent cues message
  let searchResult :=
    if ExpertType.search ∈ intents then searchOutcome.getD ⟨[], ""⟩ else ⟨[], ""⟩
  let youtubeResult :=
    if ExpertType.youtube ∈ intents then youtubeOutcome.getD ⟨[], ""⟩ else ⟨[], ""⟩
  { knowledgeContext := knowledgeResult.context
    searchResults := searchResult.results
    youtubeResults := youtubeResult.results
    searchContext := searchResult.context
    youtubeContext := youtubeResult.context
    sources :=
      knowledgeResult.sources ++
        searchResult.results.map (fun r => ⟨"web", r.title, some r.url⟩) ++
        youtubeResult.results.map (fun r => ⟨"youtube", r.title, some r.url⟩)
    expertsUsed := intents }

/-! ## Knowledge graph store (ingestion route and graph rebuild) -/

/-- A stored knowledge node as the upsert loops see it. -/
structure KnowledgeNode where
  label : String
  type : String
  strength : ℚ
  deriving DecidableEq, Repr

/-- `findFirst` by label over the per-user node table. -/
def findNode (store : List KnowledgeNode) (label : String) : Option KnowledgeNode :=
  store.find? (fun n => n.label = label)

/-- Replace the first node carrying `label` (the prisma `update` by the
found node's id). -/
def updateNode (store : List KnowledgeNode) (label : String)
    (f : KnowledgeNode → KnowledgeNode) : List KnowledgeNode :=
  match store with
  | [] => []
  | n :: rest =>
    if n.label = label then f n :: rest else n :: updateNode rest label f

/-- The entity upsert of the document-ingestion path
(`processDocumentWithAI`): create with strength `1.0` when absent;
otherwise add `0.5` to the strength (no cap) and promote a generic
`entity` type to the incoming more specific type. -/
def upsertNodeIngest (store : List KnowledgeNode) (label ty : String) :
    List KnowledgeNode :=
  match findNode store label with
  | none => store ++ [{ label := label, type := ty, strength := 1 }]
  | some _ =>
    updateNode store label (fun n =>
      { n with
        strength := n.strength + 1 / 2
        type := if n.type = "entity" ∧ ty ≠ "entity" then ty else n.type })

/-- The entity upsert of the graph-rebuild path
(`POST /api/brain/query`, rebuild branch): create with strength `1.0`
when absent; otherwise set strength to `min(strength + 0.3, 10)`. -/
def upsertNodeRebuild (store : List KnowledgeNode) (label ty : String) :
    List KnowledgeNode :=
  match findNode store label with
  | none => store ++ [{ label := label, type := ty, strength := 1 }]
  | some _ =>
    updateNode store label (fun n => { n with strength := min (n.strength + 3 / 10) 10 })

/-- How many stored nodes carry `label`. -/
def countLabel (store : List KnowledgeNode) (label : String) : ℕ :=
  (store.filter (fun n => n.label = label)).length

/-- The co-occurrence linking step shared by `processDocumentWithAI` and
the graph rebuild, on the connection map (node id → stored connection
list). All unions are computed from the connection snapshot fetched
before the step. The document node is written first
(`connections ∪ entityIds`); then every entity node in the batch is
written (`snapshot ∪ (entityIds ∖ {own id}) ∪ {docId}`), overwriting the
document write when the document node is itself one of the entity
nodes. -/
def linkCooccurring (conns : String → List String) (entityIds : List String)
    (docId : String) : String → List String :=
  fun id =>
    if id ∈ entityIds then
      setDedup (conns id ++ entityIds.filter (fun e => e ≠ id) ++ [docId])
    else if id = docId then
      setDedup (conns id ++ entityIds)
    else conns id

/-! ## Concrete example inputs -/

/-- 61 non-entity nodes followed by 20 entity nodes: the node-selection
floor `Math.max(MAX_TOTAL_NODES - importantNodes.length, 20)` keeps all
81 of them. -/
def capExNodes : List GraphNode :=
  List.replicate 61 { id := "c", label := "c", type := "concept", strength := 1 } ++
    List.replicate 20 { id := "e", label := "e", type := "entity", strength := 1 }

/-- A 7-leaf star around the node `c`. -/
def starLinks : List GraphLink :=
  [{ source := "c", target := "l1", strength := 1 },
   { source := "c", target := "l2", strength := 1 },
   { source := "c", target := "l3", strength := 1 },
   { source := "c", target := "l4", strength := 1 },
   { source := "c", target := "l5", strength := 1 },
   { source := "c", target := "l6", strength := 1 },
   { source := "c", target := "l7", strength := 1 }]

/-- The node ids of the star example. -/
def starIds : List String :=
  ["c", "l1", "l2", "l3", "l4", "l5", "l6", "l7"]

/-- Seven nodes forming, with `scenLinks`, one component of size 5 and
one of size 2. -/
def scenNodes : List GraphNode :=
  ["a1", "a2", "a3", "a4", "a5", "b1", "b2"].map
    (fun i => { id := i, label := i, type := "concept", strength := 1 })

/-- A chain over `a1 … a5` plus the single edge `b1 – b2`. -/
def scenLinks : List GraphLink :=
  [{ source := "a1", target := "a2", strength := 1 },
   { source := "a2", target := "a3", strength := 1 },
   { source := "a3", target := "a4", strength := 1 },
   { source := "a4", target := "a5", strength := 1 },
   { source := "b1", target := "b2", strength := 1 }]

/-- Two isolated nodes: `fetchGraphData` joins them with one bridge. -/
def isolatedNodes : List GraphNode :=
  [{ id := "n1", label := "n1", type := "concept", strength := 1 },
   { id := "n2", label := "n2", type := "concept", strength := 1 }]

/-- Cue families that never match (for concrete classifier runs). -/
def silentCues : IntentCues :=
  ⟨fun _ => false, fun _ => false, fun _ => false, fun _ => false⟩

/-- `k` consecutive ingestion-path upserts of the same entity into an
initially empty store. -/
def repeatIngest (k : ℕ) : List KnowledgeNode :=
  (List.range k).foldl (fun s _ => upsertNodeIngest s "Paris" "topic") []

/-! ## Helper lemmas -/

theorem mem_setDedup {α : Type} [DecidableEq α] (a : α) :
    ∀ l : List α, a ∈ setDedup l ↔ a ∈ l := by
  intro l
  induction l with
  | nil => simp [setDedup]
  | cons b t ih =>
    rw [setDedup]
    by_cases hab : a = b
    · simp [hab]
    · simp only [List.mem_cons, List.mem_filter, ih]
      constructor
      · rintro (h | ⟨h, _⟩)
        · exact Or.inl h
        · exact Or.inr h
      · rintro (h | h)
        · exact Or.inl h
        · exact Or.inr ⟨h, by simpa using hab⟩

theorem nodup_setDedup {α : Type} [DecidableEq α] :
    ∀ l : List α, (setDedup l).Nodup := by
  intro l
  induction l with
  | nil => simp [setDedup]
  | cons b t ih =>
    rw [setDedup]
    refine List.nodup_cons.mpr ⟨?_, ih.filter _⟩
    intro hb
    simp [List.mem_filter] at hb

/-! ## Claims about the agent layer -/

/-- **C9**: for every cue valuation and utterance, `classifyIntent`
includes `knowledge`, outputs no duplicate tags, and obeys the safety
net: when no cue family other than the always-on `knowledge` matched,
no possessive cue matched, and the lower-cased utterance contains a
question mark, `search` is also in the output. -/
theorem classifyIntent_contract (cues : IntentCues) (message : String) :
    ExpertType.knowledge ∈ classifyIntent cues message ∧
    (classifyIntent cues message).Nodup ∧
    (cues.youtube message = false → cues.search message = false →
      cues.summarize message = false → cues.knowledge message = false →
      occursIn (lowerStr message) "?" = true →
      ExpertType.search ∈ classifyIntent cues message) := by
  refine ⟨?_, nodup_setDedup _, ?_⟩
  · unfold classifyIntent
    rw [mem_setDedup]
    split_ifs <;> simp
  · intro h1 h2 h3 h4 h5
    unfold classifyIntent
    simp [h1, h2, h3, h4, h5, mem_setDedup]

/-- Witness for C9: with never-matching cue families and the utterance
`"hm? ok"`, the safety net fires and `search` is classified. -/
theorem classifyIntent_contract_witness :
    ExpertType.search ∈ classifyIntent silentCues "hm? ok" :=
  (classifyIntent_contract silentCues "hm? ok").2.2 rfl rfl rfl rfl (by decide)

/-- **C6**: `consensusSummarize` obeys its decision table: both
summaries empty (failed or unconfigured) gives the empty string; exactly
one non-empty gives that summary verbatim; both non-empty gives the
merge result, falling back to the primary (NVIDIA) summary when the
merge call fails. -/
theorem consensusSummarize_decision_table (nvidiaOutcome : Option String)
    (hfConfigured : Bool) (hfOutcome : Option String)
    (merge : String → String → Option String) :
    (nvidiaOutcome.getD "" = "" → (if hfConfigured then hfOutcome.getD "" else "") = "" →
      consensusSummarize nvidiaOutcome hfConfigured hfOutcome merge = "") ∧
    (nvidiaOutcome.getD "" = "" → (if hfConfigured then hfOutcome.getD "" else "") ≠ "" →
      consensusSummarize nvidiaOutcome hfConfigured hfOutcome merge =
        (if hfConfigured then hfOutcome.getD "" else "")) ∧
    (nvidiaOutcome.getD "" ≠ "" → (if hfConfigured then hfOutcome.getD "" else "") = "" →
      consensusSummarize nvidiaOutcome hfConfigured hfOutcome merge = nvidiaOutcome.getD "") ∧
    (nvidiaOutcome.getD "" ≠ "" → (if hfConfigured then hfOutcome.getD "" else "") ≠ "" →
      consensusSummarize nvidiaOutcome hfConfigured hfOutcome merge =
        (merge (nvidiaOutcome.getD "")
          (if hfConfigured then hfOutcome.getD "" else "")).getD (nvidiaOutcome.getD "")) := by
  refine ⟨?_, ?_, ?_, ?_⟩ <;> intro h1 h2 <;> simp [consensusSummarize, h1, h2]

/-- Witness for C6: both summaries non-empty with a failing merge call
falls back to the primary summary. -/
theorem consensusSummarize_decision_table_witness :
    consensusSummarize (some "alpha") true (some "beta") (fun _ _ => none) = "alpha" := by
  have h := (consensusSummarize_decision_table (some "alpha") true (some "beta")
    (fun _ _ => none)).2.2.2 (by decide) (by decide)
  simpa using h

/-- **C8**: `validateResponse` never blocks and never alters the answer
except by appending: the result is the answer itself or the answer with
the fixed caution notice appended; the answer is unchanged when the
validator is unconfigured, the call fails, the validation affirms
(`VALIDATED`) or is inconclusive (no `ISSUES`); the notice is appended
exactly when issues are flagged. -/
theorem validateResponse_append_only (hfConfigured : Bool)
    (outcome : Option String) (response : String) :
    (validateResponse hfConfigured outcome response = response ∨
      validateResponse hfConfigured outcome response = response ++ cautionNotice) ∧
    (hfConfigured = false → validateResponse hfConfigured outcome response = response) ∧
    (outcome = none → validateResponse hfConfigured outcome response = response) ∧
    (∀ v, outcome = some v → occursIn v "VALIDATED" = true →
      validateResponse hfConfigured outcome response = response) ∧
    (∀ v, outcome = some v → occursIn v "ISSUES" = false →
      validateResponse hfConfigured outcome response = response) ∧
    (∀ v, outcome = some v → occursIn v "VALIDATED" = false →
      occursIn v "ISSUES" = true → hfConfigured = true →
      validateResponse hfConfigured outcome response = response ++ cautionNotice) := by
  cases hfConfigured with
  | false => simp [validateResponse]
  | true =>
    cases outcome with
    | none => simp [validateResponse]
    | some v =>
      by_cases h1 : occursIn v "VALIDATED" <;> by_cases h2 : occursIn v "ISSUES" <;>
        simp [validateResponse, h1, h2]

/-- Witness for C8: a flagged validation appends the caution notice to
the unmodified answer. -/
theorem validateResponse_append_only_witness :
    validateResponse true (some "ISSUES: unsupported claim") "answer" =
      "answer" ++ cautionNotice :=
  (validateResponse_append_only true (some "ISSUES: unsupported claim")
    "answer").2.2.2.2.2 _ rfl (by decide) (by decide) rfl

/-- **C10**: the `AgentContext` returned by `runAgents` has
`expertsUsed` exactly equal to the classifier output for the query, and
an async expert whose settled task is rejected, or that was never
dispatched, contributes empty result lists and an empty context block
while remaining listed. -/
theorem runAgents_expertsUsed (cues : IntentCues) (message : String)
    (knowledgeResult : KnowledgeOutput)
    (searchOutcome : Option (ExpertOutput SearchResult))
    (youtubeOutcome : Option (ExpertOutput YouTubeResult)) :
    (runAgents cues message knowledgeResult searchOutcome youtubeOutcome).expertsUsed =
      classifyIntent cues message ∧
    (searchOutcome = none →
      (runAgents cues message knowledgeResult searchOutcome youtubeOutcome).searchResults = [] ∧
      (runAgents cues message knowledgeResult searchOutcome youtubeOutcome).searchContext = "") ∧
    (ExpertType.search ∉ classifyIntent cues message →
      (runAgents cues message knowledgeResult searchOutcome youtubeOutcome).searchResults = [] ∧
      (runAgents cues message knowledgeResult searchOutcome youtubeOutcome).searchContext = "") ∧
    (youtubeOutcome = none →
      (runAgents cues message knowledgeResult searchOutcome youtubeOutcome).youtubeResults = [] ∧
      (runAgents cues message knowledgeResult searchOutcome youtubeOutcome).youtubeContext = "") ∧
    (ExpertType.youtube ∉ classifyIntent cues message →
      (runAgents cues message knowledgeResult searchOutcome youtubeOutcome).youtubeResults = [] ∧
      (runAgents cues message knowledgeResult searchOutcome youtubeOutcome).youtubeContext = "") := by
  refine ⟨rfl, ?_, ?_, ?_, ?_⟩ <;> intro h <;> simp only [runAgents, h] <;>
    split <;> simp_all

/-- Witness for C10: with no cues matching and no dispatched async
expert, `expertsUsed` still equals the classifier output and the search
contribution is empty. -/
theorem runAgents_expertsUsed_witness :
    (runAgents silentCues "hello" ⟨"", []⟩ none none).expertsUsed =
      classifyIntent silentCues "hello" ∧
    (runAgents silentCues "hello" ⟨"", []⟩ none none).searchResults = [] := by
  have h := runAgents_expertsUsed silentCues "hello" ⟨"", []⟩ none none
  exact ⟨h.1, (h.2.1 rfl).1⟩

/-! ## Claims about the knowledge graph store -/

theorem updateNode_labels (store : List KnowledgeNode) (label : String)
    (f : KnowledgeNode → KnowledgeNode) (hf : ∀ n, (f n).label = n.label) :
    (updateNode store label f).map (fun n => n.label) = store.map (fun n => n.label) := by
  induction store with
  | nil => rfl
  | cons n rest ih =>
    by_cases h : n.label = label <;> simp [updateNode, h, hf, ih]

theorem countLabel_eq (s : List KnowledgeNode) (l : String) :
    countLabel s l = ((s.map (fun n => n.label)).filter (fun x => x = l)).length := by
  induction s with
  | nil => rfl
  | cons n rest ih =>
    by_cases h : n.label = l <;> simp [countLabel, List.filter_cons, h] <;>
      simpa [countLabel] using ih

theorem countLabel_updateNode (store : List KnowledgeNode) (label l2 : String)
    (f : KnowledgeNode → KnowledgeNode) (hf : ∀ n, (f n).label = n.label) :
    countLabel (updateNode store label f) l2 = countLabel store l2 := by
  rw [countLabel_eq, countLabel_eq, updateNode_labels store label f hf]

theorem findNode_updateNode (store : List KnowledgeNode) (label : String)
    (f : KnowledgeNode → KnowledgeNode) (hf : ∀ n, (f n).label = n.label)
    (n : KnowledgeNode) (h : findNode store label = some n) :
    findNode (updateNode store label f) label = some (f n) := by
  induction store with
  | nil => simp [findNode] at h
  | cons m rest ih =>
    by_cases hm : m.label = label
    · rw [findNode, List.find?_cons_of_pos _ (by simpa using hm)] at h
      obtain rfl : m = n := by injection h
      rw [updateNode]
      simp only [hm, if_pos]
      rw [findNode, List.find?_cons_of_pos _ (by simp [hf, hm])]
    · rw [findNode, List.find?_cons_of_neg _ (by simpa using hm)] at h
      rw [updateNode]
      simp only [hm, if_neg, ite_false]
      rw [findNode, List.find?_cons_of_neg _ (by simpa using hm)]
      exact ih h

theorem countLabel_of_findNode_none (store : List KnowledgeNode) (label : String)
    (h : findNode store label = none) : countLabel store label = 0 := by
  rw [countLabel]
  rw [findNode, List.find?_eq_none] at h
  simp only [List.length_eq_zero, List.filter_eq_nil_iff]
  intro n hn
  simpa using h n hn

theorem findNode_append_singleton (store : List KnowledgeNode) (label : String)
    (x : KnowledgeNode) (h : findNode store label = none) (hx : x.label = label) :
    findNode (store ++ [x]) label = some x := by
  induction store with
  | nil => simp [findNode, List.find?_cons, hx]
  | cons m rest ih =>
    rw [findNode, List.find?_eq_none] at h
    have hm : ¬m.label = label := by simpa using h m (by simp)
    rw [findNode, List.cons_append, List.find?_cons_of_neg _ (by simpa using hm)]
    refine ih ?_
    rw [findNode, List.find?_eq_none]
    intro n hn
    exact h n (by simp [hn])

theorem countLabel_append (s1 s2 : List KnowledgeNode) (l : String) :
    countLabel (s1 ++ s2) l = countLabel s1 l + countLabel s2 l := by
  simp [countLabel, List.filter_append]

theorem repeatIngest_succ (k : ℕ) :
    repeatIngest (k + 1) = upsertNodeIngest (repeatIngest k) "Paris" "topic" := by
  rw [repeatIngest, repeatIngest, List.range_succ, List.foldl_append]
  rfl

theorem repeatIngest_eq (k : ℕ) :
    repeatIngest (k + 1) =
      [{ label := "Paris", type := "topic", strength := 1 + (k : ℚ) / 2 }] := by
  induction k with
  | zero =>
    rw [repeatIngest_succ]
    show upsertNodeIngest [] "Paris" "topic" = _
    rw [upsertNodeIngest]
    norm_num [findNode]
  | succ k ih =>
    rw [repeatIngest_succ, ih, upsertNodeIngest]
    rw [show findNode [{ label := "Paris", type := "topic", strength := 1 + (k : ℚ) / 2 }]
        "Paris" = some { label := "Paris", type := "topic", strength := 1 + (k : ℚ) / 2 } by
      simp [findNode]]
    simp only [updateNode, if_pos]
    norm_num
    ring

/-- **C2 counterexample**: twenty ingestion-path upserts of the same
(user, label) leave a single node, but its stored strength is `10.5`,
exceeding the hard cap of 10 — the ingestion call site applies no cap. -/
theorem upsertNodeIngest_cap_counterexample :
    countLabel (repeatIngest 20) "Paris" = 1 ∧
    findNode (repeatIngest 20) "Paris" =
      some { label := "Paris", type := "topic", strength := 21 / 2 } ∧
    ¬(21 / 2 : ℚ) ≤ 10 := by
  have h : repeatIngest 20 = [{ label := "Paris", type := "topic", strength := 21 / 2 }] := by
    rw [show (20 : ℕ) = 19 + 1 from rfl, repeatIngest_eq]
    norm_num
  rw [h]
  refine ⟨rfl, by simp [findNode], by norm_num⟩

theorem upsertNodeIngest_of_none (s : List KnowledgeNode) (label ty : String)
    (h : findNode s label = none) :
    upsertNodeIngest s label ty = s ++ [{ label := label, type := ty, strength := 1 }] := by
  rw [upsertNodeIngest, h]

theorem upsertNodeIngest_of_found (s : List KnowledgeNode) (label ty : String)
    (n : KnowledgeNode) (h : findNode s label = some n) :
    upsertNodeIngest s label ty = updateNode s label (fun m =>
      { label := m.label
        type := if m.type = "entity" ∧ ty ≠ "entity" then ty else m.type
        strength := m.strength + 1 / 2 }) := by
  rw [upsertNodeIngest, h]

theorem upsertNodeRebuild_of_none (s : List KnowledgeNode) (label ty : String)
    (h : findNode s label = none) :
    upsertNodeRebuild s label ty = s ++ [{ label := label, type := ty, strength := 1 }] := by
  rw [upsertNodeRebuild, h]

theorem upsertNodeRebuild_of_found (s : List KnowledgeNode) (label ty : String)
    (n : KnowledgeNode) (h : findNode s label = some n) :
    upsertNodeRebuild s label ty = updateNode s label (fun m =>
      { m with strength := min (m.strength + 3 / 10) 10 }) := by
  rw [upsertNodeRebuild, h]

/-- **C2 amended**: at both upsert call sites a second call with the
same (user, label) never creates a second node and increases the stored
strength by the site's fixed increment (`0.5` on the ingestion path,
`0.3` on the rebuild path); the rebuild path caps the stored strength at
10, while the ingestion path applies no cap. -/
theorem upsertEntityNode_amended (store : List KnowledgeNode) (label ty ty2 : String) :
    (findNode store label = none →
      countLabel (upsertNodeIngest store label ty) label = 1 ∧
      countLabel (upsertNodeRebuild store label ty) label = 1 ∧
      findNode (upsertNodeIngest store label ty) label =
        some { label := label, type := ty, strength := 1 } ∧
      findNode (upsertNodeRebuild store label ty) label =
        some { label := label, type := ty, strength := 1 }) ∧
    (∀ n, findNode store label = some n →
      countLabel (upsertNodeIngest store label ty) label = countLabel store label ∧
      countLabel (upsertNodeRebuild store label ty) label = countLabel store label ∧
      findNode (upsertNodeIngest store label ty) label =
        some { label := n.label
               type := if n.type = "entity" ∧ ty ≠ "entity" then ty else n.type
               strength := n.strength + 1 / 2 } ∧
      findNode (upsertNodeRebuild store label ty) label =
        some { label := n.label, type := n.type, strength := min (n.strength + 3 / 10) 10 }) ∧
    countLabel (upsertNodeIngest (upsertNodeIngest store label ty) label ty2) label =
      countLabel (upsertNodeIngest store label ty) label ∧
    countLabel (upsertNodeRebuild (upsertNodeRebuild store label ty) label ty2) label =
      countLabel (upsertNodeRebuild store label ty) label ∧
    (∀ n, findNode (upsertNodeRebuild store label ty) label = some n → n.strength ≤ 10) := by
  have hingest : ∀ (s : List KnowledgeNode),
      findNode s label = none →
        countLabel (upsertNodeIngest s label ty) label = 1 ∧
        findNode (upsertNodeIngest s label ty) label =
          some { label := label, type := ty, strength := 1 } := by
    intro s hs
    rw [upsertNodeIngest_of_none s label ty hs]
    refine ⟨?_, findNode_append_singleton s label _ hs rfl⟩
    rw [countLabel_append, countLabel_of_findNode_none s label hs]
    simp [countLabel]
  have hrebuild : ∀ (s : List KnowledgeNode),
      findNode s label = none →
        countLabel (upsertNodeRebuild s label ty) label = 1 ∧
        findNode (upsertNodeRebuild s label ty) label =
          some { label := label, type := ty, strength := 1 } := by
    intro s hs
    rw [upsertNodeRebuild_of_none s label ty hs]
    refine ⟨?_, findNode_append_singleton s label _ hs rfl⟩
    rw [countLabel_append, countLabel_of_findNode_none s label hs]
    simp [countLabel]
  have hingest2 : ∀ (s : List KnowledgeNode) (n : KnowledgeNode),
      findNode s label = some n →
      countLabel (upsertNodeIngest s label ty) label = countLabel s label ∧
      findNode (upsertNodeIngest s label ty) label =
        some { label := n.label
               type := if n.type = "entity" ∧ ty ≠ "entity" then ty else n.type
               strength := n.strength + 1 / 2 } := by
    intro s n hn
    rw [upsertNodeIngest_of_found s label ty n hn]
    exact ⟨countLabel_updateNode s label label _ (fun _ => rfl),
      findNode_updateNode s label (fun m =>
        { label := m.label
          type := if m.type = "entity" ∧ ty ≠ "entity" then ty else m.type
          strength := m.strength + 1 / 2 }) (fun _ => rfl) n hn⟩
  have hrebuild2 : ∀ (s : List KnowledgeNode) (n : KnowledgeNode),
      findNode s label = some n →
      countLabel (upsertNodeRebuild s label ty) label = countLabel s label ∧
      findNode (upsertNodeRebuild s label ty) label =
        some { label := n.label, type := n.type, strength := min (n.strength + 3 / 10) 10 } := by
    intro s n hn
    rw [upsertNodeRebuild_of_found s label ty n hn]
    exact ⟨countLabel_updateNode s label label _ (fun _ => rfl),
      findNode_updateNode s label (fun m =>
        { m with strength := min (m.strength + 3 / 10) 10 }) (fun _ => rfl) n hn⟩
  have hafterIngest : ∀ m, findNode (upsertNodeIngest store label ty) label = some m →
      countLabel (upsertNodeIngest (upsertNodeIngest store label ty) label ty2) label =
        countLabel (upsertNodeIngest store label ty) label := by
    intro m hm
    rw [show upsertNodeIngest (upsertNodeIngest store label ty) label ty2 =
        updateNode (upsertNodeIngest store label ty) label (fun x =>
          { label := x.label
            type := if x.type = "entity" ∧ ty2 ≠ "entity" then ty2 else x.type
            strength := x.strength + 1 / 2 }) from by rw [upsertNodeIngest, hm]]
    exact countLabel_updateNode _ label label _ (fun _ => rfl)
  have hafterRebuild : ∀ m, findNode (upsertNodeRebuild store label ty) label = some m →
      countLabel (upsertNodeRebuild (upsertNodeRebuild store label ty) label ty2) label =
        countLabel (upsertNodeRebuild store label ty) label := by
    intro m hm
    rw [show upsertNodeRebuild (upsertNodeRebuild store label ty) label ty2 =
        updateNode (upsertNodeRebuild store label ty) label (fun x =>
          { x with strength := min (x.strength + 3 / 10) 10 }) from by
      rw [upsertNodeRebuild, hm]]
    exact countLabel_updateNode _ label label _ (fun _ => rfl)
  refine ⟨fun h => ⟨(hingest store h).1, (hrebuild store h).1, (hingest store h).2,
      (hrebuild store h).2⟩,
    fun n h => ⟨(hingest2 store n h).1, (hrebuild2 store n h).1, (hingest2 store n h).2,
      (hrebuild2 store n h).2⟩,
    ?_, ?_, ?_⟩
  · cases hfind : findNode store label with
    | none => exact hafterIngest _ (hingest store hfind).2
    | some n => exact hafterIngest _ (hingest2 store n hfind).2
  · cases hfind : findNode store label with
    | none => exact hafterRebuild _ (hrebuild store hfind).2
    | some n => exact hafterRebuild _ (hrebuild2 store n hfind).2
  · intro n hn
    cases hfind : findNode store label with
    | none =>
      rw [(hrebuild store hfind).2] at hn
      obtain rfl : ({ label := label, type := ty, strength := 1 } : KnowledgeNode) = n := by
        injection hn
      norm_num
    | some m =>
      rw [(hrebuild2 store m hfind).2] at hn
      obtain rfl : ({ label := m.label
                      type := m.type
                      strength := min (m.strength + 3 / 10) 10 } : KnowledgeNode) = n := by
        injection hn
      exact min_le_right _ _

/-- Witness for the amended C2: a concrete second ingestion upsert adds
`0.5` without creating a second node, and a concrete rebuild upsert of a
strength-`9.9` node stays at the cap 10. -/
theorem upsertEntityNode_amended_witness :
    countLabel (upsertNodeIngest [⟨"Paris", "topic", 1⟩] "Paris" "topic") "Paris" =
      countLabel [(⟨"Paris", "topic", 1⟩ : KnowledgeNode)] "Paris" ∧
    findNode (upsertNodeIngest [⟨"Paris", "topic", 1⟩] "Paris" "topic") "Paris" =
      some { label := "Paris", type := "topic", strength := 3 / 2 } ∧
    (∀ n, findNode (upsertNodeRebuild [⟨"Paris", "topic", 99 / 10⟩] "Paris" "topic") "Paris" =
      some n → n.strength ≤ 10) := by
  have h := upsertEntityNode_amended [⟨"Paris", "topic", 1⟩] "Paris" "topic" "topic"
  have h2 := (h.2.1 ⟨"Paris", "topic", 1⟩ (by decide))
  have h3 := upsertEntityNode_amended [⟨"Paris", "topic", 99 / 10⟩] "Paris" "topic" "topic"
  refine ⟨h2.1, ?_, h3.2.2.2.2⟩
  rw [h2.2.2.1]
  norm_num

/-- **C3 counterexample**: when the document node is itself one of the
batch's entity nodes (an extracted entity whose label equals the
document title), the linking step writes the node's own id into its
connections — a self-loop, although none existed before. -/
theorem linkCooccurring_self_loop_counterexample :
    "p" ∉ (fun _ => ([] : List String)) "p" ∧
    "p" ∈ ["p"] ∧
    "p" ∈ linkCooccurring (fun _ => []) ["p"] "p" "p" := by
  refine ⟨by simp, by simp, by decide⟩

/-- **C3 amended**: provided the document node is not itself one of the
batch's entity nodes, linking a batch through a document is symmetric —
every two distinct batch entities list each other, every batch entity
lists the document id, the document lists every batch entity — and
introduces no self-loop. -/
theorem linkCooccurring_amended (conns : String → List String)
    (entityIds : List String) (docId : String) (hd : docId ∉ entityIds) :
    (∀ a ∈ entityIds, ∀ b ∈ entityIds, a ≠ b →
      b ∈ linkCooccurring conns entityIds docId a) ∧
    (∀ a ∈ entityIds, docId ∈ linkCooccurring conns entityIds docId a) ∧
    (∀ a ∈ entityIds, a ∈ linkCooccurring conns entityIds docId docId) ∧
    (∀ id, id ∉ conns id → id ∉ linkCooccurring conns entityIds docId id) := by
  have hent : ∀ a ∈ entityIds, linkCooccurring conns entityIds docId a =
      setDedup (conns a ++ entityIds.filter (fun e => e ≠ a) ++ [docId]) := by
    intro a ha
    rw [linkCooccurring]
    simp [ha]
  have hdocEq : linkCooccurring conns entityIds docId docId =
      setDedup (conns docId ++ entityIds) := by
    rw [linkCooccurring]
    simp [hd]
  refine ⟨?_, ?_, ?_, ?_⟩
  · intro a ha b hb hne
    rw [hent a ha, mem_setDedup]
    refine List.mem_append_left _ (List.mem_append_right _ ?_)
    exact List.mem_filter.mpr ⟨hb, by simpa using hne.symm⟩
  · intro a ha
    rw [hent a ha, mem_setDedup]
    exact List.mem_append_right _ (by simp)
  · intro a ha
    rw [hdocEq, mem_setDedup]
    exact List.mem_append_right _ ha
  · intro id hid
    by_cases hin : id ∈ entityIds
    · rw [hent id hin, mem_setDedup]
      intro hmem
      rcases List.mem_append.mp hmem with h | h
      · rcases List.mem_append.mp h with h2 | h2
        · exact hid h2
        · have := (List.mem_filter.mp h2).2
          simp at this
      · have heq : id = docId := by simpa using h
        exact hd (heq ▸ hin)
    · by_cases hdq : id = docId
      · subst hdq
        rw [hdocEq, mem_setDedup]
        intro hmem
        rcases List.mem_append.mp hmem with h | h
        · exact hid h
        · exact hin h
      · have heq : linkCooccurring conns entityIds docId id = conns id := by
          rw [linkCooccurring]
          simp [hin, hdq]
        rw [heq]
        exact hid

/-- Witness for the amended C3: two entities linked through a distinct
document node end up mutually connected, both connected to the document,
and the document connected to both. -/
theorem linkCooccurring_amended_witness :
    "b" ∈ linkCooccurring (fun _ => []) ["a", "b"] "d" "a" ∧
    "a" ∈ linkCooccurring (fun _ => []) ["a", "b"] "d" "b" ∧
    "d" ∈ linkCooccurring (fun _ => []) ["a", "b"] "d" "a" ∧
    "a" ∈ linkCooccurring (fun _ => []) ["a", "b"] "d" "d" ∧
    "b" ∈ linkCooccurring (fun _ => []) ["a", "b"] "d" "d" := by
  have h := linkCooccurring_amended (fun _ => []) ["a", "b"] "d" (by decide)
  exact ⟨h.1 "a" (by decide) "b" (by decide) (by decide),
    h.1 "b" (by decide) "a" (by decide) (by decide),
    h.2.1 "a" (by decide),
    h.2.2.1 "a" (by decide),
    h.2.2.1 "b" (by decide)⟩

/-! ## Claims about the visual graph pipeline -/

/-- **C1 counterexample**: with 61 non-entity nodes and 20 entity nodes,
the floor `Math.max(MAX_TOTAL_NODES - importantNodes.length, 20)` keeps
all 81 nodes, exceeding the cap of 80. -/
theorem selectNodes_cap_counterexample :
    (selectNodes (capExNodes.map decorate)).length = 81 ∧
    ¬((selectNodes (capExNodes.map decorate)).length ≤ MAX_TOTAL_NODES) := by
  exact ⟨by decide, by decide⟩

/-- **C1 amended**: the node-selection step keeps every non-entity node
and fills up with the highest-strength entity nodes, but the number of
entity slots is `max(80 − #non-entity, 20)`: the output size is
`#non-entity + min(#entities, max(80 − #non-entity, 20))`, which
respects the cap of 80 only when `#non-entity + 20 ≤ 80`; in general it
is only bounded by `max(80, #non-entity + 20)`. Every kept entity node
has strength at least that of every dropped entity node. -/
theorem selectNodes_amended (allNodes : List GraphNode) :
    (∀ n ∈ allNodes, n.type ≠ "entity" → n ∈ selectNodes allNodes) ∧
    (selectNodes allNodes).length =
      (importantNodes allNodes).length +
        min (allNodes.filter (fun n => n.type = "entity")).length
          (max (MAX_TOTAL_NODES - (importantNodes allNodes).length) 20) ∧
    (selectNodes allNodes).length ≤
      max MAX_TOTAL_NODES ((importantNodes allNodes).length + 20) ∧
    ((importantNodes allNodes).length + 20 ≤ MAX_TOTAL_NODES →
      (selectNodes allNodes).length ≤ MAX_TOTAL_NODES) ∧
    (∀ e ∈ entityNodes allNodes, ∀ e2 ∈ allNodes.filter (fun n => n.type = "entity"),
      e2 ∉ entityNodes allNodes → strengthOr1 e2 ≤ strengthOr1 e) := by
  have hlen : (selectNodes allNodes).length =
      (importantNodes allNodes).length +
        min (allNodes.filter (fun n => n.type = "entity")).length
          (max (MAX_TOTAL_NODES - (importantNodes allNodes).length) 20) := by
    rw [selectNodes, List.length_append, entityNodes, List.length_take,
      List.length_insertionSort, Nat.min_comm]
  refine ⟨?_, hlen, ?_, ?_, ?_⟩
  · intro n hn hne
    exact List.mem_append_left _ (List.mem_filter.mpr ⟨hn, by simpa using hne⟩)
  · rw [hlen, MAX_TOTAL_NODES]
    omega
  · intro hsmall
    rw [hlen]
    rw [MAX_TOTAL_NODES] at hsmall ⊢
    omega
  · intro e he e2 he2 hnotin
    have hsorted : List.Sorted nodeGE
        ((allNodes.filter (fun n => n.type = "entity")).insertionSort nodeGE) :=
      List.sorted_insertionSort nodeGE _
    have he2s : e2 ∈ (allNodes.filter (fun n => n.type = "entity")).insertionSort nodeGE :=
      (List.perm_insertionSort nodeGE _).symm.subset he2
    set k := max (MAX_TOTAL_NODES - (importantNodes allNodes).length) 20 with hk
    set s := (allNodes.filter (fun n => n.type = "entity")).insertionSort nodeGE with hs
    have hsplit : s.take k ++ s.drop k = s := List.take_append_drop k s
    have hdrop : e2 ∈ s.drop k := by
      rcases (List.mem_append.mp (hsplit ▸ he2s)) with h | h
      · exact absurd h hnotin
      · exact h
    have hpw : List.Pairwise nodeGE (s.take k ++ s.drop k) := by
      rw [hsplit]
      exact hsorted
    exact (List.pairwise_append.mp hpw).2.2 e he e2 hdrop

/-- Witness for the amended C1: on a small graph every non-entity node
is kept and the cap is respected. -/
theorem selectNodes_amended_witness :
    ({ id := "c", label := "c", type := "concept", strength := 1 } : GraphNode) ∈
      selectNodes [{ id := "c", label := "c", type := "concept", strength := 1 },
        { id := "e1", label := "e1", type := "entity", strength := 1 }] ∧
    (selectNodes [({ id := "c", label := "c", type := "concept", strength := 1 } : GraphNode),
        { id := "e1", label := "e1", type := "entity", strength := 1 }]).length ≤
      MAX_TOTAL_NODES := by
  have h := selectNodes_amended
    [{ id := "c", label := "c", type := "concept", strength := 1 },
     { id := "e1", label := "e1", type := "entity", strength := 1 }]
  exact ⟨h.1 _ (by decide) (by decide), h.2.2.2.1 (by decide)⟩

theorem filterLinksAux_sound (nodeIds : List String) :
    ∀ (links : List GraphLink) (cnt : String → ℕ),
      ∀ l ∈ (filterLinksAux nodeIds cnt links).1,
        l.source ∈ nodeIds ∧ l.target ∈ nodeIds ∧ l.source ≠ l.target ∧ l ∈ links := by
  intro links
  induction links with
  | nil =>
    intro cnt l hl
    simp [filterLinksAux] at hl
  | cons a ls ih =>
    intro cnt l hl
    rw [filterLinksAux] at hl
    split at hl
    case isTrue h =>
      rcases List.mem_cons.mp hl with rfl | hl2
      · exact ⟨h.1, h.2.1, h.2.2.1, List.mem_cons_self _ _⟩
      · obtain ⟨h1, h2, h3, h4⟩ := ih _ l hl2
        exact ⟨h1, h2, h3, List.mem_cons_of_mem _ h4⟩
    case isFalse h =>
      obtain ⟨h1, h2, h3, h4⟩ := ih _ l hl
      exact ⟨h1, h2, h3, List.mem_cons_of_mem _ h4⟩

theorem filterLinksAux_counts (nodeIds : List String) :
    ∀ (links : List GraphLink) (cnt : String → ℕ) (x : String),
      (filterLinksAux nodeIds cnt links).2 x =
        cnt x + (((filterLinksAux nodeIds cnt links).1).filter
          (fun l => l.source = x ∨ l.target = x)).length := by
  intro links
  induction links with
  | nil =>
    intro cnt x
    simp [filterLinksAux]
  | cons a ls ih =>
    intro cnt x
    rw [filterLinksAux]
    split
    case isTrue h =>
      show (filterLinksAux nodeIds (bump (bump cnt a.source) a.target) ls).2 x = _
      rw [ih, List.filter_cons]
      simp only [decide_eq_true_eq]
      by_cases hcond : a.source = x ∨ a.target = x
      · rw [if_pos hcond, List.length_cons]
        have hind : bump (bump cnt a.source) a.target x = cnt x + 1 := by
          have hne := h.2.2.1
          simp only [bump]
          rcases hcond with hc | hc
          · have h2 : ¬x = a.target := by
              intro hh
              exact hne (hc.trans hh)
            rw [if_neg h2, if_pos hc.symm]
          · have h3 : ¬x = a.source := by
              intro hh
              exact hne (hh.symm.trans hc.symm)
            rw [if_pos hc.symm, if_neg h3]
        rw [hind]
        omega
      · rw [if_neg hcond]
        push_neg at hcond
        have h1 : ¬x = a.source := fun hh => hcond.1 hh.symm
        have h2 : ¬x = a.target := fun hh => hcond.2 hh.symm
        have hind : bump (bump cnt a.source) a.target x = cnt x := by
          simp only [bump]
          rw [if_neg h2, if_neg h1]
        rw [hind]
    case isFalse h =>
      exact ih cnt x

/-- **C4 counterexample**: in a 7-leaf star every link has one fresh
endpoint, so all 7 links are admitted and the hub `c` ends up incident
to 7 admitted edges — more than the per-node cap of 6; the code only
rejects a link when *both* endpoints have reached the cap. -/
theorem filterLinks_per_node_cap_counterexample :
    MAX_LINKS_PER_NODE = 6 ∧
    ((filteredLinks starIds starLinks).filter
      (fun l => l.source = "c" ∨ l.target = "c")).length = 7 := by
  exact ⟨rfl, by decide⟩

/-- **C4 amended**: candidate links are considered in descending weight
order; a link is admitted iff both endpoints are kept, it is not a
self-loop, and its endpoints are *not both* at the per-node cap; both
endpoints' counters are incremented on admission. Hence every node's
final counter equals the number of admitted links incident to it and no
link is admitted once both its endpoints hold 6 links — but a single
node can exceed 6 admitted links. -/
theorem filterLinks_admission_amended (nodeIds : List String) (links : List GraphLink) :
    (∀ l ∈ filteredLinks nodeIds links,
      l.source ∈ nodeIds ∧ l.target ∈ nodeIds ∧ l.source ≠ l.target ∧ l ∈ links) ∧
    (∀ x, (filterLinksAux nodeIds (fun _ => 0) (links.insertionSort linkGE)).2 x =
      ((filteredLinks nodeIds links).filter
        (fun l => l.source = x ∨ l.target = x)).length) ∧
    (∀ (cnt : String → ℕ) (l : GraphLink) (ls : List GraphLink),
      MAX_LINKS_PER_NODE ≤ cnt l.source → MAX_LINKS_PER_NODE ≤ cnt l.target →
      (filterLinksAux nodeIds cnt (l :: ls)).1 = (filterLinksAux nodeIds cnt ls).1) ∧
    List.Sorted linkGE (links.insertionSort linkGE) ∧
    (links.insertionSort linkGE).Perm links := by
  refine ⟨?_, ?_, ?_, List.sorted_insertionSort linkGE links, List.perm_insertionSort linkGE links⟩
  · intro l hl
    obtain ⟨h1, h2, h3, h4⟩ := filterLinksAux_sound nodeIds _ _ l hl
    exact ⟨h1, h2, h3, (List.perm_insertionSort linkGE links).subset h4⟩
  · intro x
    simpa using filterLinksAux_counts nodeIds (links.insertionSort linkGE) (fun _ => 0) x
  · intro cnt l ls h1 h2
    rw [filterLinksAux, if_neg]
    rintro ⟨-, -, -, hcap⟩
    exact hcap ⟨h1, h2⟩

/-- Witness for the amended C4: a concrete admitted link of the star
example has kept endpoints and is not a self-loop, and the hub counter
equals its incidence count. -/
theorem filterLinks_admission_amended_witness :
    (({ source := "c", target := "l1", strength := 1 } : GraphLink).source ∈ starIds ∧
      ({ source := "c", target := "l1", strength := 1 } : GraphLink).target ∈ starIds ∧
      ({ source := "c", target := "l1", strength := 1 } : GraphLink).source ≠
        ({ source := "c", target := "l1", strength := 1 } : GraphLink).target ∧
      ({ source := "c", target := "l1", strength := 1 } : GraphLink) ∈ starLinks) ∧
    (filterLinksAux starIds (fun _ => 0) (starLinks.insertionSort linkGE)).2 "c" =
      ((filteredLinks starIds starLinks).filter
        (fun l => l.source = "c" ∨ l.target = "c")).length := by
  have h := filterLinks_admission_amended starIds starLinks
  exact ⟨h.1 _ (by decide), h.2.1 "c"⟩

theorem bfsAux_acc (adj : List (String × List String)) :
    ∀ (fuel : ℕ) (visited queue acc : List String),
      ∃ t, (bfsAux adj fuel visited queue acc).2 = acc ++ t := by
  intro fuel
  induction fuel with
  | zero =>
    intro v q a
    exact ⟨[], by simp [bfsAux]⟩
  | succ fuel ih =>
    intro v q a
    cases q with
    | nil => exact ⟨[], by simp [bfsAux]⟩
    | cons c qs =>
      rw [bfsAux]
      by_cases hc : c ∈ v
      · rw [if_pos hc]
        exact ih v qs a
      · rw [if_neg hc]
        obtain ⟨t, ht⟩ := ih (c :: v)
          (qs ++ (adjGet adj c).filter (fun nb => nb ∉ c :: v)) (a ++ [c])
        exact ⟨[c] ++ t, by rw [ht, List.append_assoc]⟩

theorem bfsAux_seed (adj : List (String × List String)) (fuel : ℕ)
    (visited : List String) (id : String) (h : id ∉ visited) :
    ∃ t, (bfsAux adj (fuel + 1) visited [id] []).2 = id :: t := by
  rw [bfsAux, if_neg h]
  obtain ⟨t, ht⟩ := bfsAux_acc adj fuel (id :: visited)
    ([] ++ (adjGet adj id).filter (fun nb => nb ∉ id :: visited)) ([] ++ [id])
  exact ⟨t, by simpa using ht⟩

theorem clusterStep_ne_nil (adj : List (String × List String)) (F : ℕ) (hF : F ≠ 0) :
    ∀ (l : List String) (st : List String × List (List String)),
      (∀ c ∈ st.2, c ≠ []) →
      ∀ c ∈ (l.foldl (clusterStep adj F) st).2, c ≠ [] := by
  intro l
  induction l with
  | nil =>
    intro st hst c hc
    exact hst c hc
  | cons id ls ih =>
    intro st hst c hc
    rw [List.foldl_cons] at hc
    refine ih (clusterStep adj F st id) ?_ c hc
    intro c2 hc2
    rw [clusterStep] at hc2
    by_cases hid : id ∈ st.1
    · rw [if_pos hid] at hc2
      exact hst c2 hc2
    · rw [if_neg hid] at hc2
      simp only at hc2
      rcases List.mem_append.mp hc2 with h2 | h2
      · exact hst c2 h2
      · obtain ⟨F2, rfl⟩ := Nat.exists_eq_succ_of_ne_zero hF
        obtain ⟨t, ht⟩ := bfsAux_seed adj F2 st.1 id hid
        have hc3 : c2 = id :: t := by
          have : c2 = (bfsAux adj (F2 + 1) st.1 [id] []).2 := by simpa using h2
          rw [this, ht]
        rw [hc3]
        exact List.cons_ne_nil _ _

theorem clustersOf_ne_nil (nodeIds : List String) (adj : List (String × List String)) :
    ∀ c ∈ clustersOf nodeIds adj, c ≠ [] := by
  intro c hc
  refine clusterStep_ne_nil adj ((nodeIds.length + 1) * (nodeIds.length + 1))
    (by positivity) nodeIds ([], []) ?_ c hc
  intro c2 hc2
  simp at hc2

theorem visClusters_ne_nil (rawNodes : List GraphNode) (rawLinks : List GraphLink) :
    ∀ c ∈ visClusters rawNodes rawLinks, c ≠ [] := by
  intro c hc
  exact clustersOf_ne_nil _ _ c ((List.perm_insertionSort clusterGE _).subset hc)

theorem headD_mem {α : Type} (c : List α) (d : α) (h : c ≠ []) : c.headD d ∈ c := by
  cases c with
  | nil => exact absurd rfl h
  | cons a t => exact List.mem_cons_self a t

/-- **C5**: the bridge-insertion step adds exactly (number of BFS
components − 1) bridge links; every bridge goes from a member of a
non-first (hence non-larger) component to the fixed anchor — the first
node of the size-largest component — with the low weight `0.1` and the
bridge marker; components are sorted by size descending, the first being
a largest. On the concrete 5-and-2-component scenario the output has 7
nodes and exactly one bridge. -/
theorem fetchGraphData_bridges (rawNodes : List GraphNode) (rawLinks : List GraphLink)
    (hraw : ∀ l ∈ rawLinks, l.bridge = false) :
    ((fetchGraphData rawNodes rawLinks).2.filter (fun l => l.bridge)).length =
      (visClusters rawNodes rawLinks).length - 1 ∧
    (∀ l ∈ (fetchGraphData rawNodes rawLinks).2, l.bridge = true →
      ∃ c ∈ (visClusters rawNodes rawLinks).tail,
        l.source ∈ c ∧
        l.target ∈ (visClusters rawNodes rawLinks).headD [] ∧
        l.target = ((visClusters rawNodes rawLinks).headD []).headD "" ∧
        l.strength = 1 / 10) ∧
    (∀ c ∈ visClusters rawNodes rawLinks,
      c.length ≤ ((visClusters rawNodes rawLinks).headD []).length) ∧
    (fetchGraphData scenNodes scenLinks).1.length = 7 ∧
    ((fetchGraphData scenNodes scenLinks).2.filter (fun l => l.bridge)).length = 1 := by
  have hfiltered : ∀ l ∈ filteredLinks (keptIds rawNodes) rawLinks, l.bridge = false := by
    intro l hl
    obtain ⟨-, -, -, h4⟩ := filterLinksAux_sound (keptIds rawNodes) _ _ l hl
    exact hraw l ((List.perm_insertionSort linkGE rawLinks).subset h4)
  have hbridgeAll : ∀ l ∈ bridgeLinks (visClusters rawNodes rawLinks), l.bridge = true := by
    intro l hl
    rw [bridgeLinks] at hl
    split at hl
    · obtain ⟨c, -, rfl⟩ := List.mem_map.mp hl
      rfl
    · simp at hl
  refine ⟨?_, ?_, ?_, by decide, by decide⟩
  · rw [fetchGraphData]
    simp only [List.filter_append]
    rw [show (filteredLinks (keptIds rawNodes) rawLinks).filter (fun l => l.bridge) = []
      from List.filter_eq_nil_iff.mpr (fun l hl => by simp [hfiltered l hl])]
    rw [show (bridgeLinks (visClusters rawNodes rawLinks)).filter (fun l => l.bridge) =
        bridgeLinks (visClusters rawNodes rawLinks)
      from List.filter_eq_self.mpr (fun l hl => by simp [hbridgeAll l hl])]
    rw [List.nil_append, bridgeLinks]
    split
    case isTrue h =>
      rw [List.length_map, List.length_tail]
    case isFalse h =>
      simp only [List.length_nil]
      omega
  · intro l hl hb
    rw [fetchGraphData] at hl
    rcases List.mem_append.mp hl with h | h
    · rw [hfiltered l h] at hb
      exact absurd hb (by simp)
    · rw [bridgeLinks] at h
      split at h
      case isTrue hgt =>
        obtain ⟨c, hc, rfl⟩ := List.mem_map.mp h
        have hcs : c ∈ visClusters rawNodes rawLinks := List.mem_of_mem_tail hc
        have hcne : c ≠ [] := visClusters_ne_nil rawNodes rawLinks c hcs
        have hhead : (visClusters rawNodes rawLinks).headD [] ∈
            visClusters rawNodes rawLinks := by
          refine headD_mem _ _ ?_
          intro hnil
          rw [hnil] at hc
          simp at hc
        have hheadne : (visClusters rawNodes rawLinks).headD [] ≠ [] :=
          visClusters_ne_nil rawNodes rawLinks _ hhead
        exact ⟨c, hc, headD_mem c "" hcne, headD_mem _ "" hheadne, rfl, rfl⟩
      case isFalse hgt =>
        simp at h
  · intro c hc
    have hsorted : List.Sorted clusterGE (visClusters rawNodes rawLinks) := by
      rw [visClusters]
      exact List.sorted_insertionSort clusterGE _
    cases hvc : visClusters rawNodes rawLinks with
    | nil =>
      rw [hvc] at hc
      simp at hc
    | cons h0 t =>
      rw [hvc] at hc hsorted
      simp only [List.headD_cons]
      rcases List.mem_cons.mp hc with rfl | hct
      · exact le_refl _
      · exact List.rel_of_sorted_cons hsorted c hct

/-- Witness for C5: on the 5-and-2 scenario the theorem's bridge count
and anchor characterization hold concretely. -/
theorem fetchGraphData_bridges_witness :
    ((fetchGraphData scenNodes scenLinks).2.filter (fun l => l.bridge)).length =
      (visClusters scenNodes scenLinks).length - 1 ∧
    (fetchGraphData scenNodes scenLinks).1.length = 7 := by
  have h := fetchGraphData_bridges scenNodes scenLinks (by decide)
  exact ⟨h.1, h.2.2.2.1⟩

theorem mem_collectAux (selId : String) :
    ∀ (links : List GraphLink) (acc : List String) (x : String),
      x ∈ links.foldl
        (fun ids l =>
          if l.target = selId then
            (if l.source = selId then ids ++ [l.target] else ids) ++ [l.source]
          else if l.source = selId then ids ++ [l.target] else ids) acc ↔
      (x ∈ acc ∨ ∃ l, l ∈ links ∧
        ((l.source = selId ∧ l.target = x) ∨ (l.target = selId ∧ l.source = x))) := by
  intro links
  induction links with
  | nil =>
    intro acc x
    simp
  | cons a ls ih =>
    intro acc x
    rw [List.foldl_cons]
    have hstep : x ∈ (if a.target = selId then
          (if a.source = selId then acc ++ [a.target] else acc) ++ [a.source]
        else if a.source = selId then acc ++ [a.target] else acc) ↔
        (x ∈ acc ∨ ((a.source = selId ∧ a.target = x) ∨ (a.target = selId ∧ a.source = x))) := by
      by_cases h1 : a.source = selId <;> by_cases h2 : a.target = selId <;>
        simp [h1, h2, List.mem_append, eq_comm]
    constructor
    · intro hx
      rcases (ih _ x).mp hx with hacc | ⟨l, hl, hP⟩
      · rcases hstep.mp hacc with h | h
        · exact Or.inl h
        · exact Or.inr ⟨a, List.mem_cons_self _ _, h⟩
      · exact Or.inr ⟨l, List.mem_cons_of_mem _ hl, hP⟩
    · intro hx
      refine (ih _ x).mpr ?_
      rcases hx with hacc | ⟨l, hl, hP⟩
      · exact Or.inl (hstep.mpr (Or.inl hacc))
      · rcases List.mem_cons.mp hl with rfl | hl2
        · exact Or.inl (hstep.mpr (Or.inr hP))
        · exact Or.inr ⟨l, hl2, hP⟩

theorem mem_collectConnected (selId x : String) (links : List GraphLink) :
    x ∈ collectConnected selId links ↔
    ∃ l, l ∈ links ∧ ((l.source = selId ∧ l.target = x) ∨ (l.target = selId ∧ l.source = x)) := by
  have h := mem_collectAux selId links [] x
  simpa using h

/-- **C7 counterexample**: on two isolated nodes `fetchGraphData`
produces no real (non-bridge) link at all, yet selecting `n1` lists `n2`
as a connected node — the neighbor query does not exclude the bridge
link. -/
theorem connectedNodes_bridge_counterexample :
    ((fetchGraphData isolatedNodes []).2.filter (fun l => !l.bridge)) = [] ∧
    (connectedNodes (some { id := "n1", label := "n1", type := "concept", strength := 1 })
        (fetchGraphData isolatedNodes []).1
        (fetchGraphData isolatedNodes []).2).map (fun n => n.id) = ["n2"] := by
  exact ⟨by decide, by decide⟩

/-- **C7 amended**: bridge links are indeed rendered with zero width and
a fully transparent color, regardless of selection and search state —
but the connected-nodes query does not exclude them: it lists exactly
the nodes reachable from the selected node through *any* link, bridges
included. -/
theorem bridge_presentation_amended (st : LinkViewState) (l : GraphLink)
    (sel : GraphNode) (nodes : List GraphNode) (links : List GraphLink) (n : GraphNode) :
    (l.bridge = true → linkColor st l = "rgba(0, 0, 0, 0)" ∧ linkWidth st l = 0) ∧
    (n ∈ connectedNodes (some sel) nodes links ↔
      n ∈ nodes ∧ ∃ l2, l2 ∈ links ∧
        ((l2.source = sel.id ∧ l2.target = n.id) ∨ (l2.target = sel.id ∧ l2.source = n.id))) := by
  constructor
  · intro hb
    constructor
    · rw [linkColor, if_pos hb]
    · rw [linkWidth, if_pos hb]
  · show n ∈ (if links.length = 0 then [] else
        nodes.filter (fun m => m.id ∈ collectConnected sel.id links)) ↔ _
    by_cases hlen : links.length = 0
    · rw [if_pos hlen]
      obtain rfl : links = [] := List.length_eq_zero.mp hlen
      simp
    · rw [if_neg hlen, List.mem_filter]
      constructor
      · rintro ⟨hn, hmem⟩
        exact ⟨hn, (mem_collectConnected sel.id n.id links).mp (by simpa using hmem)⟩
      · rintro ⟨hn, hex⟩
        exact ⟨hn, by simpa using (mem_collectConnected sel.id n.id links).mpr hex⟩

/-- Witness for the amended C7: a concrete bridge link is drawn fully
transparent with zero width, and on the isolated-nodes graph the
neighbor query for `n1` does list `n2` through the bridge. -/
theorem bridge_presentation_amended_witness :
    linkColor ⟨none, "", [], [], []⟩ { source := "a", target := "b", strength := 1, bridge := true } =
      "rgba(0, 0, 0, 0)" ∧
    linkWidth ⟨none, "", [], [], []⟩ { source := "a", target := "b", strength := 1, bridge := true } =
      0 ∧
    decorate { id := "n2", label := "n2", type := "concept", strength := 1 } ∈
      connectedNodes (some { id := "n1", label := "n1", type := "concept", strength := 1 })
        (fetchGraphData isolatedNodes []).1 (fetchGraphData isolatedNodes []).2 := by
  have h1 := (bridge_presentation_amended ⟨none, "", [], [], []⟩
    { source := "a", target := "b", strength := 1, bridge := true }
    { id := "n1", label := "n1", type := "concept", strength := 1 } [] []
    (decorate { id := "n2", label := "n2", type := "concept", strength := 1 })).1 rfl
  have h2 := (bridge_presentation_amended ⟨none, "", [], [], []⟩
    { source := "a", target := "b", strength := 1, bridge := true }
    { id := "n1", label := "n1", type := "concept", strength := 1 }
    (fetchGraphData isolatedNodes []).1 (fetchGraphData isolatedNodes []).2
    (decorate { id := "n2", label := "n2", type := "concept", strength := 1 })).2
  refine ⟨h1.1, h1.2, h2.mpr ⟨?_, ?_⟩⟩
  · show _ ∈ selectNodes (isolatedNodes.map decorate)
    rw [show selectNodes (isolatedNodes.map decorate) =
      [decorate { id := "n1", label := "n1", type := "concept", strength := 1 },
       decorate { id := "n2", label := "n2", type := "concept", strength := 1 }] from rfl]
    exact List.mem_cons_of_mem _ (List.mem_singleton.mpr rfl)
  · refine ⟨{ source := "n2", target := "n1", strength := 1 / 10, bridge := true }, ?_, ?_⟩
    · show _ ∈ filteredLinks (keptIds isolatedNodes) [] ++
        bridgeLinks (visClusters isolatedNodes [])
      refine List.mem_append_right _ ?_
      rw [show bridgeLinks (visClusters isolatedNodes []) =
        [{ source := "n2", target := "n1", strength := 1 / 10, bridge := true }] from rfl]
      exact List.mem_singleton.mpr rfl
    · exact Or.inr ⟨rfl, rfl⟩

end NeuralCortex
